import Mathlib

/-!
Shallow embedding of the algorithmic core of `plug-ins/common/van-gogh-lic.c`
(the GIMP "Van Gogh (LIC)" plug-in), together with theorems settling the
specification claims about it.

Machine doubles are modelled by `ℚ` (the code performs only field operations,
floors, absolute values and comparisons on them), except for the gradient
normalization, whose `sqrt` forces `ℝ`.  C `gint` becomes `ℤ`, the scalar map
bytes become `ℕ` values, and the global parameters of the C file become
explicit arguments.
-/

namespace VanGoghLic

/-- Grid dimension `numx` of the pseudo-random vector grid (line 50). -/
def numx : ℕ := 40

/-- Grid dimension `numy` of the pseudo-random vector grid (line 51). -/
def numy : ℕ := 40

/-- Embeds the coordinate-adjusting loop `while (x < 0) x += n;` used by
`peekmap` (lines 187-192) and `omega` (lines 266-271): repeatedly add the
modulus until the coordinate is nonnegative.  For `n = 0` the C loop would not
terminate; the embedding then returns `x` unchanged (all uses have `n > 0`). -/
def licAdjust (n : ℕ) (x : ℤ) : ℤ :=
  if _h : 0 < n ∧ x < 0 then licAdjust n (x + n) else x
termination_by (-x).toNat
decreasing_by
  omega

/-- Embeds `peekmap` (lines 182-196): wrap `(x, y)` into the effect image's
`w × h` extent (toroidally, also for negative coordinates) and read the scalar
map at linear index `x + w * y`.  The map itself is a function from linear
indices to byte values. -/
def peekmap (image : ℕ → ℕ) (w h : ℕ) (x y : ℤ) : ℤ :=
  (image ((licAdjust w x % (w : ℤ)).toNat + w * (licAdjust h y % (h : ℤ)).toNat) : ℤ)

/-- Embeds `gradx` (lines 211-228): the fixed 3×3 x-kernel applied to the
scalar map with toroidal wraparound. -/
def gradx (image : ℕ → ℕ) (w h : ℕ) (x y : ℤ) : ℤ :=
  peekmap image w h (x - 1) (y - 1) - peekmap image w h (x + 1) (y - 1)
    + 2 * peekmap image w h (x - 1) y - 2 * peekmap image w h (x + 1) y
    + peekmap image w h (x - 1) (y + 1) - peekmap image w h (x + 1) (y + 1)

/-- Embeds `grady` (lines 230-246): the fixed 3×3 y-kernel applied to the
scalar map with toroidal wraparound. -/
def grady (image : ℕ → ℕ) (w h : ℕ) (x y : ℤ) : ℤ :=
  peekmap image w h (x - 1) (y - 1) + 2 * peekmap image w h x (y - 1)
    + peekmap image w h (x + 1) (y - 1)
    - peekmap image w h (x - 1) (y + 1) - 2 * peekmap image w h x (y + 1)
    - peekmap image w h (x + 1) (y + 1)

/-- Embeds `cubic` (lines 252-258): the interpolation weight
`|t|² (2|t| − 3) + 1` for `|t| < 1`, else `0`. -/
def cubic (t : ℚ) : ℚ :=
  if |t| < 1 then |t| * |t| * (2 * |t| - 3) + 1 else 0

/-- Embeds `omega` (lines 260-276): wrap the cell indices `(i, j)` into the
vector grid (same loop-plus-modulo normalization as `peekmap`) and return
`cubic u * cubic v * (G[i][j][0] * u + G[i][j][1] * v)`.  The grid `G` is an
explicit argument replacing the C global filled by `generatevectors`. -/
def omega (G : ℕ → ℕ → ℚ × ℚ) (u v : ℚ) (i j : ℤ) : ℚ :=
  let i2 := (licAdjust numx i % (numx : ℤ)).toNat
  let j2 := (licAdjust numy j % (numy : ℤ)).toNat
  cubic u * cubic v * ((G i2 j2).1 * u + (G i2 j2).2 * v)

/-- The loop body of `noise` (lines 294-298):
`omega ((x - i*dx) / dx, (y - j*dy) / dy, i, j)` for cell `(i, j)`. -/
def noiseTerm (G : ℕ → ℕ → ℚ × ℚ) (dx dy x y : ℚ) (i j : ℤ) : ℚ :=
  omega G ((x - (i : ℚ) * dx) / dx) ((y - (j : ℚ) * dy) / dy) i j

/-- Embeds `noise` (lines 282-301): with `sti = ⌊x/dx⌋`, `stj = ⌊y/dy⌋`, sum
the four `omega` contributions of the 2×2 surrounding cells (the C double loop
over `i ∈ {sti, sti+1}`, `j ∈ {stj, stj+1}`, unrolled in loop order). -/
def noise (G : ℕ → ℕ → ℚ × ℚ) (dx dy : ℚ) (x y : ℚ) : ℚ :=
  let sti : ℤ := ⌊x / dx⌋
  let stj : ℤ := ⌊y / dy⌋
  noiseTerm G dx dy x y sti stj + noiseTerm G dx dy x y sti (stj + 1)
    + noiseTerm G dx dy x y (sti + 1) stj + noiseTerm G dx dy x y (sti + 1) (stj + 1)

/-- Embeds `filter` (lines 332-338): the triangle filter
`max 0 (1 − |u| / l)`, written as the C code computes it. -/
def filter (l u : ℚ) : ℚ :=
  let f := 1 - |u| / l
  if f < 0 then 0 else f

/-- Embeds the trapezoidal loop of `lic_noise` and `lic_image`
(lines 367-372): `for (u = -l + step; u <= l; u += step)` accumulating
`(f1 + f2) * 0.5 * step` where `f2 = g u` is the current filtered sample and
`f1` the previous one.  The sample function `g` abstracts the body
`filter (u) * noise (xx - u*c, yy - u*s)`.  For `step ≤ 0` the C loop with
`u ≤ l` would not terminate; the embedding then returns the accumulator
unchanged (the code always has `step = 2l/isteps > 0`). -/
def licLoop (g : ℚ → ℚ) (l step u f1 acc : ℚ) : ℚ :=
  if h : 0 < step ∧ u ≤ l then
    licLoop g l step (u + step) (g u) (acc + (f1 + g u) * (1 / 2) * step)
  else acc
termination_by (⌊(l - u) / step⌋ + 1).toNat
decreasing_by
  obtain ⟨hs, hu⟩ := h
  have hne : step ≠ 0 := ne_of_gt hs
  have h1 : (l - (u + step)) / step = (l - u) / step - 1 := by
    field_simp
    ring
  have h2 : (0 : ℚ) ≤ (l - u) / step := div_nonneg (by linarith) (le_of_lt hs)
  have h3 : (0 : ℤ) ≤ ⌊(l - u) / step⌋ := Int.floor_nonneg.mpr h2
  have h4 : ⌊(l - u) / step - 1⌋ = ⌊(l - u) / step⌋ - 1 := by
    rw [show ((1 : ℚ)) = ((1 : ℤ) : ℚ) by norm_num, Int.floor_sub_int]
  rw [h1, h4]
  omega

/-- Embeds the integral computation of `lic_noise` (lines 350-372):
`step = 2l/isteps`, initial sample `f1 = g (-l)`
(the code's `filter (-l) * noise (xx + l*c, yy + l*s)`), loop from
`u = -l + step`. -/
def licIntegral (g : ℚ → ℚ) (l isteps : ℚ) : ℚ :=
  licLoop g l (2 * l / isteps) (-l + 2 * l / isteps) (g (-l)) 0

/-- The per-sample contribution of `lic_noise` (lines 365-369):
`filter (u) * noise (xx - u*vx, yy - u*vy)`. -/
def licSample (G : ℕ → ℕ → ℚ × ℚ) (dx dy x y vx vy l u : ℚ) : ℚ :=
  filter l u * noise G dx dy (x - u * vx) (y - u * vy)

/-- Embeds `CLAMP (i, 0.0, 1.0)` from line 376. -/
def clamp01 (q : ℚ) : ℚ := max 0 (min 1 q)

/-- Embeds `lic_noise` (lines 344-381): the trapezoidal integral of the
filtered noise samples along the flow `(vx, vy)`, then
`(i - minv) / (maxv - minv)`, clamped to `[0,1]`, then `i/2 + 0.5`. -/
def lic_noise (G : ℕ → ℕ → ℚ × ℚ) (dx dy l isteps minv maxv : ℚ)
    (x y : ℤ) (vx vy : ℚ) : ℚ :=
  let i := licIntegral (licSample G dx dy (x : ℚ) (y : ℚ) vx vy l) l isteps
  clamp01 ((i - minv) / (maxv - minv)) / 2 + 1 / 2

/-- RGBA color with double channels, as used by the pixel routines. -/
structure RGBA where
  r : ℚ
  g : ℚ
  b : ℚ
  a : ℚ
deriving DecidableEq, Repr

/-- Modelled from the spec: `gimp_rgb_multiply` (libgimpcolor, not under
`src/`) multiplies the color channels by a scalar, leaving alpha unchanged
(the spec's channel-wise multiply without alpha). -/
def gimp_rgb_multiply (c : RGBA) (t : ℚ) : RGBA :=
  ⟨c.r * t, c.g * t, c.b * t, c.a⟩

/-- Modelled from the spec: `gimp_rgba_multiply` (libgimpcolor, not under
`src/`) multiplies all four channels by a scalar — per the spec, alpha is
scaled identically to color when the source has an alpha channel. -/
def gimp_rgba_multiply (c : RGBA) (t : ℚ) : RGBA :=
  ⟨c.r * t, c.g * t, c.b * t, c.a * t⟩

/-- Embeds the noise-mode pixel update of `compute_lic` (lines 591-601): the
source pixel is multiplied by the `lic_noise` scalar, via `gimp_rgba_multiply`
when the source drawable has alpha and `gimp_rgb_multiply` otherwise. -/
def licNoisePixel (hasAlpha : Bool) (src : RGBA) (t : ℚ) : RGBA :=
  if hasAlpha then gimp_rgba_multiply src t else gimp_rgb_multiply src t

/-- The effect-channel enumeration `LICEffectChannel` (lines 57-62). -/
inductive LICEffectChannel where
  | hue
  | saturation
  | brightness
deriving DecidableEq, Repr

/-- HSL triple as produced by `gimp_rgb_to_hsl`, each component in `[0,1]`. -/
structure HSL where
  h : ℚ
  s : ℚ
  l : ℚ
deriving DecidableEq, Repr

/-- Embeds the channel switch of `rgb_to_hsl` (lines 520-531): the chosen HSL
component scaled by 255. -/
def channelVal (ch : LICEffectChannel) (c : HSL) : ℚ :=
  match ch with
  | LICEffectChannel.hue => c.h * 255
  | LICEffectChannel.saturation => c.s * 255
  | LICEffectChannel.brightness => c.l * 255

/-- Embeds GIMP's `RINT` (round to nearest, the `floor (x + 0.5)` form of the
macro) as used at line 536. -/
def rintQ (q : ℚ) : ℤ := ⌊q + 1 / 2⌋

/-- Embeds `CLAMP0255` from line 536. -/
def clamp0255 (z : ℤ) : ℤ := max 0 (min 255 z)

/-- Embeds the map built by `rgb_to_hsl` (lines 486-545) as a function from
linear index to stored value.  The allocation has `effect_width *
effect_height` entries (line 501-505), but the fill loops run over the border
rectangle `border_w × border_h` (lines 507-509) with a sequentially increasing
index, so index `idx` is written from effect-image pixel
`(idx % border_w, idx / border_w)` when `idx < border_w * border_h` and is
otherwise left uninitialized (modelled by the arbitrary `junk` function, since
`g_new` does not zero memory).  The effect image is given as a function from
pixel coordinates to its HSL conversion, and the per-pixel jitter drawn from
`g_rand_double_range (gr, -1.0, 1.0)` (line 534) as a function of the index. -/
def rgb_to_hsl_entry (border_w border_h : ℕ) (img : ℕ → ℕ → HSL)
    (ch : LICEffectChannel) (jitter : ℕ → ℚ) (junk : ℕ → ℤ) (idx : ℕ) : ℤ :=
  if idx < border_w * border_h then
    clamp0255 (rintQ (channelVal ch (img (idx % border_w) (idx / border_w)) + jitter idx))
  else junk idx

/-- Number of entries allocated by `rgb_to_hsl` (line 501, `maxc = width *
height` of the effect image). -/
def rgb_to_hsl_size (effect_w effect_h : ℕ) : ℕ := effect_w * effect_h

/-- The persisted parameter record `LicValues` (lines 127-138). -/
structure LicValues where
  filtlen : ℚ
  noisemag : ℚ
  intsteps : ℚ
  minv : ℚ
  maxv : ℚ
  effect_channel : ℤ
  effect_operator : ℤ
  effect_convolve : ℤ
  effect_image_id : ℤ
deriving DecidableEq, Repr

/-- Embeds `compute_image`'s clamping of the filter length (lines 637-640):
`if (licvals.filtlen < 0.1) licvals.filtlen = 0.1; l = licvals.filtlen`. -/
def run_l (v : LicValues) : ℚ := if v.filtlen < 1 / 10 then 1 / 10 else v.filtlen

/-- Embeds `minv = licvals.minv / 10.0` (line 642). -/
def run_minv (v : LicValues) : ℚ := v.minv / 10

/-- Embeds `maxv = licvals.maxv / 10.0` (line 643). -/
def run_maxv (v : LicValues) : ℚ := v.maxv / 10

/-- The denominator of the normalization `i = (i - minv) / (maxv - minv)` at
line 374 of `lic_noise`, in terms of the run parameters set by
`compute_image`.  No threshold check guards this division in the source. -/
def licNoiseDenominator (v : LicValues) : ℚ := run_maxv v - run_minv v

/-- The operator value attached to the "_Derivative" radio button in
`create_main_dialog` (line 749). -/
def OPERATOR_DERIVATIVE : ℤ := 0

/-- The operator value attached to the "_Gradient" radio button in
`create_main_dialog` (line 750). -/
def OPERATOR_GRADIENT : ℤ := 1

/-- Embeds the rotation step of `compute_lic` (lines 572-578) together with
the call site `compute_lic (drawable, scalarfield, licvals.effect_operator)`
(line 666): the `rotate` flag is the operator value read as a C boolean
(nonzero means true), and when set the code performs
`tmp = vy; vy = -vx; vx = tmp`, i.e. `(vx, vy) ↦ (vy, -vx)`. -/
def flowVector (effect_operator : ℤ) (vx vy : ℚ) : ℚ × ℚ :=
  if effect_operator ≠ 0 then (vy, -vx) else (vx, vy)

/-- Embeds the normalization step of `compute_lic` (lines 580-586):
`tmp = sqrt (vx*vx + vy*vy); if (tmp >= 0.000001) { tmp = 1/tmp; vx *= tmp;
vy *= tmp; }`.  The square root forces the real numbers here. -/
noncomputable def normalize_flow (vx vy : ℝ) : ℝ × ℝ :=
  if 1 / 1000000 ≤ Real.sqrt (vx * vx + vy * vy) then
    (vx * (1 / Real.sqrt (vx * vx + vy * vy)),
     vy * (1 / Real.sqrt (vx * vx + vy * vy)))
  else (vx, vy)

/-- The GIMP PDB status values returned by `lic_run`. -/
inductive GimpPDBStatus where
  | success
  | calling_error
  | execution_error
  | cancel
deriving DecidableEq, Repr

/-- The run modes dispatched on by `lic_run` (lines 943-964). -/
inductive GimpRunMode where
  | interactive
  | with_last_vals
  | noninteractive
deriving DecidableEq, Repr

/-- A drawable, reduced to the attributes `lic_run`/`compute_image` consult. -/
structure Drawable where
  width : ℕ
  height : ℕ
  is_rgb : Bool
  has_alpha : Bool
deriving DecidableEq, Repr

/-- Embeds the sanitization at lines 935-936 of `lic_run`:
`if (! gimp_item_id_is_valid (licvals.effect_image_id))
licvals.effect_image_id = -1;`.  The host's validity predicate is an explicit
argument. -/
def sanitizeEffectId (valid : ℤ → Bool) (id : ℤ) : ℤ :=
  if valid id then id else -1

/-- Modelled from the spec: `gimp_drawable_get_by_id` (libgimp, not under
`src/`) resolves a drawable identifier at line 648 of `compute_image`; per the
spec's degenerate-reference policy, the absent identifier (`-1`, produced by
the sanitization for absent or invalid ids) falls back to the convolution
source's own drawable. -/
def resolveEffectImage (byId : ℤ → Drawable) (source : Drawable) (id : ℤ) : Drawable :=
  if id = -1 then source else byId id

/-- The effect image used by `compute_image` (line 648) after `lic_run`'s
sanitization of the stored identifier (lines 935-936). -/
def compute_image_effect (valid : ℤ → Bool) (byId : ℤ → Drawable)
    (source : Drawable) (id : ℤ) : Drawable :=
  resolveEffectImage byId source (sanitizeEffectId valid id)

/-- Embeds the dispatch of `lic_run` (lines 895-974).  The first component is
the returned PDB status; the second records whether `compute_image` was
invoked (the only path that writes to the drawable).  With `n_drawables ≠ 1`
the procedure returns a calling error before touching anything (lines
908-919); with a non-RGB drawable it returns an execution error (lines
966-971); otherwise it runs `compute_image` in interactive mode (after an
accepted dialog) and in run-with-last-values mode, and does nothing in the
remaining modes. -/
def lic_run (n_drawables : ℤ) (is_rgb : Bool) (mode : GimpRunMode)
    (dialog_ok : Bool) : GimpPDBStatus × Bool :=
  if n_drawables ≠ 1 then (GimpPDBStatus.calling_error, false)
  else if is_rgb then
    match mode with
    | GimpRunMode.interactive =>
        if dialog_ok then (GimpPDBStatus.success, true)
        else (GimpPDBStatus.cancel, false)
    | GimpRunMode.with_last_vals => (GimpPDBStatus.success, true)
    | GimpRunMode.noninteractive => (GimpPDBStatus.success, false)
  else (GimpPDBStatus.execution_error, false)

/-- Concrete parameter record with `minv = maxv = 0`, both within their dialog
slider ranges (`Minimum value` spans `[-100, 0]`, line 814; `Maximum value`
spans `[0, 100]`, lines 821-822), selecting the noise convolution source. -/
def lic_cex_vals : LicValues :=
  ⟨5, 2, 25, 0, 0, 2, 1, 0, -1⟩

/-!
Theorems.
-/

/-- The adjusting loop preserves the residue class modulo `n` (auxiliary
strong induction on a bound for the iteration count). -/
theorem licAdjust_emod_aux (n : ℕ) : ∀ (k : ℕ) (x : ℤ), (-x).toNat ≤ k →
    licAdjust n x % (n : ℤ) = x % (n : ℤ) := by
  intro k
  induction k with
  | zero =>
    intro x hx
    rw [licAdjust]
    split
    · omega
    · rfl
  | succ k ih =>
    intro x hx
    rw [licAdjust]
    split
    · rename_i hc
      rw [ih (x + n) (by omega)]
      rw [show x + (n : ℤ) = x + (n : ℤ) * 1 by ring, Int.add_mul_emod_self_left]
    · rfl

/-- The adjusting loop preserves the residue class modulo `n`. -/
theorem licAdjust_emod (n : ℕ) (x : ℤ) :
    licAdjust n x % (n : ℤ) = x % (n : ℤ) :=
  licAdjust_emod_aux n (-x).toNat x le_rfl

/-- Shifting the coordinate by one period does not change the wrapped residue
used to index the map or the vector grid. -/
theorem licAdjust_add_emod (n : ℕ) (z : ℤ) :
    licAdjust n (z + n) % (n : ℤ) = licAdjust n z % (n : ℤ) := by
  rw [licAdjust_emod, licAdjust_emod,
    show z + (n : ℤ) = z + (n : ℤ) * 1 by ring, Int.add_mul_emod_self_left]

/-- C1: the claim pairs the 90-degree rotation with the "derivative" operator
value, but on the code the "_Derivative" radio value `0` makes the `rotate`
flag false (no rotation) and the "_Gradient" value `1` makes it true: at raw
gradient `(1, 2)` the derivative mode hands on `(1, 2)`, not the claimed
rotation `(2, -1)`. -/
theorem flow_rotation_mode_counterexample :
    flowVector OPERATOR_DERIVATIVE 1 2 = ((1 : ℚ), (2 : ℚ)) ∧
    flowVector OPERATOR_GRADIENT 1 2 = ((2 : ℚ), (-1 : ℚ)) ∧
    ((1 : ℚ), (2 : ℚ)) ≠ (((2 : ℚ), (-1 : ℚ)) : ℚ × ℚ) := by
  refine ⟨?_, ?_, ?_⟩ <;>
    norm_num [flowVector, OPERATOR_DERIVATIVE, OPERATOR_GRADIENT, Prod.ext_iff]

/-- C1 (amended): for every raw gradient `(gx, gy)`, the rotation step of
`compute_lic` applies the 90-degree rotation `(vy, -vx)` exactly when the
operator parameter holds the "_Gradient" value `1`, and passes `(gx, gy)`
through unchanged for the "_Derivative" value `0` — the opposite pairing from
the claim. -/
theorem flow_rotation_mode (gx gy : ℚ) :
    flowVector OPERATOR_GRADIENT gx gy = (gy, -gx) ∧
    flowVector OPERATOR_DERIVATIVE gx gy = (gx, gy) := by
  constructor <;> norm_num [flowVector, OPERATOR_GRADIENT, OPERATOR_DERIVATIVE]

/-- C9: on a constant scalar field both 3×3 kernel sums cancel, so `gradx`
and `grady` return `0` at every coordinate. -/
theorem gradient_const_zero (c w h : ℕ) (x y : ℤ) :
    gradx (fun _ => c) w h x y = 0 ∧ grady (fun _ => c) w h x y = 0 := by
  constructor <;> simp [gradx, grady, peekmap]

/-- C10: `lic_run` with `n_drawables ≠ 1` returns a calling error, and with a
single non-RGB drawable an execution error; in both cases `compute_image` is
never invoked, so the drawable is untouched. -/
theorem lic_run_errors (n : ℤ) (is_rgb : Bool) (mode : GimpRunMode) (ok : Bool) :
    (n ≠ 1 → lic_run n is_rgb mode ok = (GimpPDBStatus.calling_error, false)) ∧
    (is_rgb = false → lic_run 1 is_rgb mode ok = (GimpPDBStatus.execution_error, false)) := by
  constructor
  · intro hn
    simp [lic_run, hn]
  · intro hrgb
    subst hrgb
    simp [lic_run]

/-- C10 witness: `lic_run` on two drawables, and on one non-RGB drawable. -/
theorem lic_run_errors_witness :
    lic_run 2 true GimpRunMode.interactive true = (GimpPDBStatus.calling_error, false) ∧
    lic_run 1 false GimpRunMode.interactive true = (GimpPDBStatus.execution_error, false) :=
  ⟨(lic_run_errors 2 true GimpRunMode.interactive true).1 (by decide),
   (lic_run_errors 1 false GimpRunMode.interactive true).2 rfl⟩

/-- C2: when the stored effect-image identifier is invalid (or already the
absent marker `-1`), the sanitization of `lic_run` resets it to `-1` and the
effect-image resolution falls back to the convolution source's own drawable,
and a run-with-last-values invocation still completes with success. -/
theorem effect_image_fallback (valid : ℤ → Bool) (byId : ℤ → Drawable)
    (source : Drawable) (id : ℤ) (h : valid id = false ∨ id = -1) :
    compute_image_effect valid byId source id = source ∧
    lic_run 1 true GimpRunMode.with_last_vals false = (GimpPDBStatus.success, true) := by
  constructor
  · unfold compute_image_effect sanitizeEffectId resolveEffectImage
    rcases h with h | h
    · simp [h]
    · subst h
      by_cases hv : valid (-1) <;> simp [hv]
  · simp [lic_run]

/-- C2 witness: an identifier the host reports invalid resolves to the source
drawable. -/
theorem effect_image_fallback_witness :
    compute_image_effect (fun _ => false) (fun _ => Drawable.mk 8 8 true true)
        (Drawable.mk 4 4 true false) 5 = Drawable.mk 4 4 true false ∧
    lic_run 1 true GimpRunMode.with_last_vals false = (GimpPDBStatus.success, true) :=
  effect_image_fallback (fun _ => false) (fun _ => Drawable.mk 8 8 true true)
    (Drawable.mk 4 4 true false) 5 (Or.inl rfl)

/-- C4: the claim that every division is guarded by a `1e-6` threshold fails:
with `minv = maxv = 0` — both within their dialog slider ranges and selecting
the noise convolution source — the denominator `maxv - minv` of the
normalization at line 374 of `lic_noise` is `0`, and no threshold check
precedes that division in the source. -/
theorem noise_normalization_unguarded :
    (-100 ≤ lic_cex_vals.minv ∧ lic_cex_vals.minv ≤ 0) ∧
    (0 ≤ lic_cex_vals.maxv ∧ lic_cex_vals.maxv ≤ 100) ∧
    lic_cex_vals.effect_convolve = 0 ∧
    licNoiseDenominator lic_cex_vals = 0 ∧
    ¬ ((1 : ℚ) / 1000000 ≤ |licNoiseDenominator lic_cex_vals|) := by
  norm_num [licNoiseDenominator, run_minv, run_maxv, lic_cex_vals]

/-- C4 (amended): the gradient-normalization division in `compute_lic` is
guarded — below the `1e-6` magnitude threshold the flow vector is passed
through with no division — but the noise-mode normalization of `lic_noise` is
not: its denominator `maxv - minv` is `0` for parameter values inside the
dialog's slider ranges. -/
theorem normalization_guards (vx vy : ℝ)
    (h : Real.sqrt (vx * vx + vy * vy) < 1 / 1000000) :
    normalize_flow vx vy = (vx, vy) ∧
    licNoiseDenominator lic_cex_vals = 0 ∧
    -100 ≤ lic_cex_vals.minv ∧ lic_cex_vals.minv ≤ 0 ∧
    0 ≤ lic_cex_vals.maxv ∧ lic_cex_vals.maxv ≤ 100 := by
  refine ⟨?_, by norm_num [licNoiseDenominator, run_minv, run_maxv, lic_cex_vals],
    by norm_num [lic_cex_vals], by norm_num [lic_cex_vals],
    by norm_num [lic_cex_vals], by norm_num [lic_cex_vals]⟩
  unfold normalize_flow
  rw [if_neg (not_le.mpr h)]

/-- C4 witness: a flow vector of magnitude `5e-7` is below the threshold and
passes through the normalization unchanged. -/
theorem normalization_guards_witness :
    normalize_flow 0 (1 / 2000000) = (0, 1 / 2000000) ∧
    licNoiseDenominator lic_cex_vals = 0 ∧
    -100 ≤ lic_cex_vals.minv ∧ lic_cex_vals.minv ≤ 0 ∧
    0 ≤ lic_cex_vals.maxv ∧ lic_cex_vals.maxv ≤ 100 :=
  normalization_guards 0 (1 / 2000000) (by
    rw [show (0 : ℝ) * 0 + (1 / 2000000 : ℝ) * (1 / 2000000) = (1 / 2000000 : ℝ) ^ 2 by ring,
      Real.sqrt_sq (by norm_num)]
    norm_num)

/-- C8: the normalization of `compute_lic` scales the flow vector to unit
length whenever `sqrt (vx² + vy²) ≥ 1e-6`, passes it through unchanged below
the threshold, and in particular maps `(0, 0)` to `(0, 0)`. -/
theorem normalize_flow_spec (vx vy : ℝ) :
    (1 / 1000000 ≤ Real.sqrt (vx * vx + vy * vy) →
      (normalize_flow vx vy).1 ^ 2 + (normalize_flow vx vy).2 ^ 2 = 1) ∧
    (Real.sqrt (vx * vx + vy * vy) < 1 / 1000000 →
      normalize_flow vx vy = (vx, vy)) ∧
    normalize_flow 0 0 = (0, 0) := by
  refine ⟨?_, ?_, ?_⟩
  · intro h
    have hm : (0 : ℝ) ≤ vx * vx + vy * vy :=
      add_nonneg (mul_self_nonneg vx) (mul_self_nonneg vy)
    have hs : 0 < Real.sqrt (vx * vx + vy * vy) := lt_of_lt_of_le (by norm_num) h
    have hm2 : 0 < vx * vx + vy * vy := by
      rcases lt_or_eq_of_le hm with h2 | h2
      · exact h2
      · rw [← h2, Real.sqrt_zero] at hs
        exact absurd hs (lt_irrefl 0)
    unfold normalize_flow
    rw [if_pos h]
    have hsq : Real.sqrt (vx * vx + vy * vy) ^ 2 = vx * vx + vy * vy :=
      Real.sq_sqrt hm
    calc (vx * (1 / Real.sqrt (vx * vx + vy * vy))) ^ 2
          + (vy * (1 / Real.sqrt (vx * vx + vy * vy))) ^ 2
        = (vx * vx + vy * vy) / Real.sqrt (vx * vx + vy * vy) ^ 2 := by ring
      _ = (vx * vx + vy * vy) / (vx * vx + vy * vy) := by rw [hsq]
      _ = 1 := div_self (ne_of_gt hm2)
  · intro h
    unfold normalize_flow
    rw [if_neg (not_le.mpr h)]
  · unfold normalize_flow
    rw [if_neg (by
      rw [show (0 : ℝ) * 0 + 0 * 0 = 0 by ring, Real.sqrt_zero]
      norm_num)]

/-- C8 witness: the gradient `(3, 4)` has magnitude `5` above the threshold,
and its normalization has unit length. -/
theorem normalize_flow_spec_witness :
    (normalize_flow 3 4).1 ^ 2 + (normalize_flow 3 4).2 ^ 2 = 1 :=
  (normalize_flow_spec 3 4).1 (by
    rw [show (3 : ℝ) * 3 + 4 * 4 = 5 ^ 2 by norm_num, Real.sqrt_sq (by norm_num)]
    norm_num)

/-- C3: the claim fails when the border rectangle differs from the effect
image: with a 2×1 effect image (constant lightness 1, zero jitter) but a 1×1
border rectangle, the allocated map has 2 entries, yet entry `(1, 0)` — index
`1 + 2*0` — is never written by the fill loops (which run over the border
dimensions), so it holds uninitialized memory (here `-7`) instead of the
claimed channel value `255`. -/
theorem rgb_to_hsl_stride_counterexample :
    rgb_to_hsl_size 2 1 = 2 ∧
    rgb_to_hsl_entry 1 1 (fun _ _ => HSL.mk 0 0 1) LICEffectChannel.brightness
        (fun _ => 0) (fun _ => -7) (1 + 2 * 0) = -7 ∧
    clamp0255 (rintQ (channelVal LICEffectChannel.brightness (HSL.mk 0 0 1) + 0)) = 255 ∧
    ((-7 : ℤ) ≠ 255) := by
  refine ⟨rfl, ?_, ?_, by decide⟩
  · unfold rgb_to_hsl_entry
    norm_num
  · unfold clamp0255 rintQ channelVal
    norm_num

/-- C3 (amended): when the border rectangle's dimensions equal the effect
image's width and height, every map entry at index `x + width * y` is the
chosen HSL channel of effect-image pixel `(x, y)` scaled to `[0, 255]`, plus
the per-pixel jitter, rounded and clamped into `[0, 255]`, and the map has
`width * height` entries. -/
theorem rgb_to_hsl_matches_when_dims_agree (ew eh : ℕ) (img : ℕ → ℕ → HSL)
    (ch : LICEffectChannel) (jitter : ℕ → ℚ) (junk : ℕ → ℤ) (x y : ℕ)
    (hx : x < ew) (hy : y < eh) :
    rgb_to_hsl_entry ew eh img ch jitter junk (x + ew * y)
      = clamp0255 (rintQ (channelVal ch (img x y) + jitter (x + ew * y))) ∧
    0 ≤ rgb_to_hsl_entry ew eh img ch jitter junk (x + ew * y) ∧
    rgb_to_hsl_entry ew eh img ch jitter junk (x + ew * y) ≤ 255 ∧
    rgb_to_hsl_size ew eh = ew * eh := by
  have hlt : x + ew * y < ew * eh := by
    have h1 : ew * (y + 1) ≤ ew * eh := Nat.mul_le_mul_left ew (by omega)
    have h2 : ew * (y + 1) = ew * y + ew := by ring
    omega
  have hmod : (x + ew * y) % ew = x := by
    rw [Nat.add_mul_mod_self_left, Nat.mod_eq_of_lt hx]
  have hdiv : (x + ew * y) / ew = y := by
    rw [Nat.add_mul_div_left x y (by omega : 0 < ew), Nat.div_eq_of_lt hx]
    omega
  refine ⟨?_, ?_, ?_, rfl⟩
  · unfold rgb_to_hsl_entry
    rw [if_pos hlt, hmod, hdiv]
  · unfold rgb_to_hsl_entry clamp0255
    rw [if_pos hlt]
    exact le_max_left 0 _
  · unfold rgb_to_hsl_entry clamp0255
    rw [if_pos hlt]
    exact max_le (by norm_num) (min_le_left _ _)

/-- C3 witness: a 2×1 effect image processed with a matching 2×1 border
rectangle fills entry `(1, 0)` with the clamped rounded lightness value. -/
theorem rgb_to_hsl_matches_witness :
    rgb_to_hsl_entry 2 1 (fun _ _ => HSL.mk 0 0 1) LICEffectChannel.brightness
        (fun _ => 0) (fun _ => -7) (1 + 2 * 0)
      = clamp0255 (rintQ (channelVal LICEffectChannel.brightness (HSL.mk 0 0 1)
          + (fun _ => (0 : ℚ)) (1 + 2 * 0))) ∧
    0 ≤ rgb_to_hsl_entry 2 1 (fun _ _ => HSL.mk 0 0 1) LICEffectChannel.brightness
        (fun _ => 0) (fun _ => -7) (1 + 2 * 0) ∧
    rgb_to_hsl_entry 2 1 (fun _ _ => HSL.mk 0 0 1) LICEffectChannel.brightness
        (fun _ => 0) (fun _ => -7) (1 + 2 * 0) ≤ 255 ∧
    rgb_to_hsl_size 2 1 = 2 * 1 :=
  rgb_to_hsl_matches_when_dims_agree 2 1 (fun _ _ => HSL.mk 0 0 1)
    LICEffectChannel.brightness (fun _ => 0) (fun _ => -7) 1 0
    (by norm_num) (by norm_num)

/-- A final loop iteration: when the current `u` is within range but the next
one is not, the loop adds one trapezoid and stops. -/
theorem licLoop_last (g : ℚ → ℚ) (l step u f1 acc : ℚ)
    (h1 : 0 < step) (h2 : u ≤ l) (h3 : ¬ u + step ≤ l) :
    licLoop g l step u f1 acc = acc + (f1 + g u) * (1 / 2) * step := by
  rw [licLoop, dif_pos ⟨h1, h2⟩, licLoop, dif_neg (fun hc => h3 hc.2)]

/-- C7: with `isteps = 1` the step is `2l`, the loop starts at `u = -l + 2l =
l` and runs exactly once, so the trapezoidal integral of `lic_noise` reduces
to the single two-sample trapezoid `(f(-l) + f(l)) * 0.5 * 2l` with
`f u = filter u * noise (x - u*vx, y - u*vy)`. -/
theorem lic_integral_single_step (G : ℕ → ℕ → ℚ × ℚ)
    (dx dy x y vx vy l isteps : ℚ) (hsteps : isteps = 1) (hl : 0 < l) :
    licIntegral (licSample G dx dy x y vx vy l) l isteps
      = (licSample G dx dy x y vx vy l (-l) + licSample G dx dy x y vx vy l l)
          * (1 / 2) * (2 * l) := by
  subst hsteps
  unfold licIntegral
  simp only [div_one]
  rw [show -l + 2 * l = l by ring]
  rw [licLoop_last _ l (2 * l) l _ 0 (by linarith) le_rfl (by intro hc; linarith)]
  ring

/-- C7 witness: the single-step reduction at a concrete grid, pixel and flow
vector. -/
theorem lic_integral_single_step_witness :
    licIntegral (licSample (fun _ _ => (1, 0)) 2 2 0 0 1 0 1) 1 1
      = (licSample (fun _ _ => (1, 0)) 2 2 0 0 1 0 1 (-1)
          + licSample (fun _ _ => (1, 0)) 2 2 0 0 1 0 1 1) * (1 / 2) * (2 * 1) :=
  lic_integral_single_step (fun _ _ => (1, 0)) 2 2 0 0 1 0 1 1 rfl (by norm_num)

/-- C5: `lic_noise` returns `clamp ((I - minv) / (maxv - minv), 0, 1) / 2 +
0.5` for `I` the trapezoidal line integral, hence a value in `[0.5, 1]`; the
noise-mode output pixel is the source pixel multiplied channel-wise by that
scalar, with alpha scaled identically exactly when the source has an alpha
channel. -/
theorem lic_noise_range_and_apply (G : ℕ → ℕ → ℚ × ℚ)
    (dx dy l isteps minv maxv : ℚ) (x y : ℤ) (vx vy : ℚ) (src : RGBA)
    (_hminv : minv < maxv) :
    lic_noise G dx dy l isteps minv maxv x y vx vy
      = clamp01 ((licIntegral (licSample G dx dy (x : ℚ) (y : ℚ) vx vy l) l isteps
          - minv) / (maxv - minv)) / 2 + 1 / 2 ∧
    1 / 2 ≤ lic_noise G dx dy l isteps minv maxv x y vx vy ∧
    lic_noise G dx dy l isteps minv maxv x y vx vy ≤ 1 ∧
    licNoisePixel true src (lic_noise G dx dy l isteps minv maxv x y vx vy)
      = RGBA.mk (src.r * lic_noise G dx dy l isteps minv maxv x y vx vy)
          (src.g * lic_noise G dx dy l isteps minv maxv x y vx vy)
          (src.b * lic_noise G dx dy l isteps minv maxv x y vx vy)
          (src.a * lic_noise G dx dy l isteps minv maxv x y vx vy) ∧
    licNoisePixel false src (lic_noise G dx dy l isteps minv maxv x y vx vy)
      = RGBA.mk (src.r * lic_noise G dx dy l isteps minv maxv x y vx vy)
          (src.g * lic_noise G dx dy l isteps minv maxv x y vx vy)
          (src.b * lic_noise G dx dy l isteps minv maxv x y vx vy)
          src.a := by
  have hc1 : 0 ≤ clamp01 ((licIntegral (licSample G dx dy (x : ℚ) (y : ℚ) vx vy l) l isteps
      - minv) / (maxv - minv)) := le_max_left 0 _
  have hc2 : clamp01 ((licIntegral (licSample G dx dy (x : ℚ) (y : ℚ) vx vy l) l isteps
      - minv) / (maxv - minv)) ≤ 1 := max_le (by norm_num) (min_le_left _ _)
  refine ⟨rfl, ?_, ?_, rfl, rfl⟩
  · unfold lic_noise
    linarith
  · unfold lic_noise
    linarith

/-- C5 witness: concrete grid, parameters with `minv < maxv`, pixel, flow
vector and source pixel. -/
theorem lic_noise_range_and_apply_witness :
    lic_noise (fun _ _ => (1, 0)) 2 2 1 1 (-1/4) (1/4) 0 0 1 0
      = clamp01 ((licIntegral (licSample (fun _ _ => (1, 0)) 2 2 ((0 : ℤ) : ℚ)
          ((0 : ℤ) : ℚ) 1 0 1) 1 1 - (-1/4)) / (1/4 - (-1/4))) / 2 + 1 / 2 ∧
    1 / 2 ≤ lic_noise (fun _ _ => (1, 0)) 2 2 1 1 (-1/4) (1/4) 0 0 1 0 ∧
    lic_noise (fun _ _ => (1, 0)) 2 2 1 1 (-1/4) (1/4) 0 0 1 0 ≤ 1 ∧
    licNoisePixel true (RGBA.mk 1 (1/2) (1/4) 1)
        (lic_noise (fun _ _ => (1, 0)) 2 2 1 1 (-1/4) (1/4) 0 0 1 0)
      = RGBA.mk (1 * lic_noise (fun _ _ => (1, 0)) 2 2 1 1 (-1/4) (1/4) 0 0 1 0)
          (1/2 * lic_noise (fun _ _ => (1, 0)) 2 2 1 1 (-1/4) (1/4) 0 0 1 0)
          (1/4 * lic_noise (fun _ _ => (1, 0)) 2 2 1 1 (-1/4) (1/4) 0 0 1 0)
          (1 * lic_noise (fun _ _ => (1, 0)) 2 2 1 1 (-1/4) (1/4) 0 0 1 0) ∧
    licNoisePixel false (RGBA.mk 1 (1/2) (1/4) 1)
        (lic_noise (fun _ _ => (1, 0)) 2 2 1 1 (-1/4) (1/4) 0 0 1 0)
      = RGBA.mk (1 * lic_noise (fun _ _ => (1, 0)) 2 2 1 1 (-1/4) (1/4) 0 0 1 0)
          (1/2 * lic_noise (fun _ _ => (1, 0)) 2 2 1 1 (-1/4) (1/4) 0 0 1 0)
          (1/4 * lic_noise (fun _ _ => (1, 0)) 2 2 1 1 (-1/4) (1/4) 0 0 1 0)
          1 :=
  lic_noise_range_and_apply (fun _ _ => (1, 0)) 2 2 1 1 (-1/4) (1/4) 0 0 1 0
    (RGBA.mk 1 (1/2) (1/4) 1) (by norm_num)

/-- C6: sampling is spatially periodic — `peekmap` is invariant under shifting
either coordinate by the effect image's extent (also at negative coordinates),
and the vector-field `noise` value is invariant under shifting `x` by one grid
period `numx * dx`. -/
theorem sampling_periodicity (image : ℕ → ℕ) (w h : ℕ) (x y : ℤ)
    (G : ℕ → ℕ → ℚ × ℚ) (dx dy xr yr : ℚ)
    (_hw : 0 < w) (_hh : 0 < h) (hdx : 0 < dx) :
    peekmap image w h (x + w) y = peekmap image w h x y ∧
    peekmap image w h x (y + h) = peekmap image w h x y ∧
    noise G dx dy (xr + (numx : ℚ) * dx) yr = noise G dx dy xr yr := by
  have hne : dx ≠ 0 := ne_of_gt hdx
  refine ⟨?_, ?_, ?_⟩
  · unfold peekmap
    rw [licAdjust_add_emod w x]
  · unfold peekmap
    rw [licAdjust_add_emod h y]
  · have hfloor : ⌊(xr + (numx : ℚ) * dx) / dx⌋ = ⌊xr / dx⌋ + (numx : ℤ) := by
      rw [show (xr + (numx : ℚ) * dx) / dx = xr / dx + ((numx : ℤ) : ℚ) by
        push_cast
        field_simp]
      exact Int.floor_add_int _ _
    have omega_wrap : ∀ (u v : ℚ) (i j : ℤ),
        omega G u v (i + (numx : ℤ)) j = omega G u v i j := by
      intro u v i j
      unfold omega
      rw [licAdjust_add_emod numx i]
    have term_shift : ∀ (i j : ℤ),
        noiseTerm G dx dy (xr + (numx : ℚ) * dx) yr (i + (numx : ℤ)) j
          = noiseTerm G dx dy xr yr i j := by
      intro i j
      unfold noiseTerm
      rw [show (xr + (numx : ℚ) * dx - ((i + (numx : ℤ) : ℤ) : ℚ) * dx)
            = xr - (i : ℚ) * dx by push_cast; ring]
      exact omega_wrap _ _ i j
    simp only [noise]
    rw [hfloor]
    rw [show ⌊xr / dx⌋ + (numx : ℤ) + 1 = ⌊xr / dx⌋ + 1 + (numx : ℤ) by ring]
    rw [term_shift, term_shift, term_shift, term_shift]

/-- C6 witness: periodicity at concrete negative coordinates, a concrete map,
grid and noise-cell size. -/
theorem sampling_periodicity_witness :
    peekmap (fun i => i) 2 3 (-5 + 2) 7 = peekmap (fun i => i) 2 3 (-5) 7 ∧
    peekmap (fun i => i) 2 3 (-5) (7 + 3) = peekmap (fun i => i) 2 3 (-5) 7 ∧
    noise (fun _ _ => (1, 1)) 2 2 (1/3 + (numx : ℚ) * 2) (-4/5)
      = noise (fun _ _ => (1, 1)) 2 2 (1/3) (-4/5) :=
  sampling_periodicity (fun i => i) 2 3 (-5) 7 (fun _ _ => (1, 1)) 2 2 (1/3) (-4/5)
    (by norm_num) (by norm_num) (by norm_num)

end VanGoghLic
